import Mathlib

/-!
Verification development for the widdershins core (common.js): the schema
flattener `schemaToArray`, the type inferencer `inferType`, the truncator
`strim`, and the sample synthesizer `getSample` / `getSampleInner`.

JavaScript values are embedded as finite JSON trees (`JVal`); schema nodes
as a structured record (`JSchema`) carrying exactly the keywords the code
reads.  JavaScript string operations used by the code are re-implemented on
character lists so that they evaluate inside the kernel.  External library
functions (oas-schema-walker, reftools recurse and visit, openapi-sampler,
safe-json-stringify) are not part of the repository source; they are
modelled from the specification text, and the sample generator is kept
fully abstract as an oracle parameter.
-/

/-- JSON-compatible JavaScript value: null, booleans, numbers, strings,
arrays and plain objects (field order preserved, as in the code). -/
inductive JVal where
  | null : JVal
  | bool (b : Bool) : JVal
  | num (n : Int) : JVal
  | str (s : String) : JVal
  | arr (elems : List JVal) : JVal
  | obj (fields : List (String × JVal)) : JVal

/-- Result of the JavaScript `typeof` operator on a `JVal`.  Note that
`typeof null` and `typeof` of an array are both the string `object`. -/
def jsTypeof : JVal → String
  | .null => "object"
  | .bool _ => "boolean"
  | .num _ => "number"
  | .str _ => "string"
  | .arr _ => "object"
  | .obj _ => "object"

/-- JavaScript truthiness of a value: null, false, 0 and the empty string
are falsy; every object and array is truthy. -/
def jsTruthy : JVal → Bool
  | .null => false
  | .bool b => b
  | .num n => decide (n ≠ 0)
  | .str s => !s.data.isEmpty
  | .arr _ => true
  | .obj _ => true

/-- Property read `v[k]` on a JavaScript value: `none` models `undefined`.
Only plain objects carry named properties in this embedding. -/
def objGet (v : JVal) (k : String) : Option JVal :=
  match v with
  | .obj fields => (fields.find? (fun p => decide (p.1 = k))).map Prod.snd
  | _ => none

/-- Length of `Object.keys(v)`: own enumerable keys of an object, indices
of an array, character indices of a string, and zero for other primitives. -/
def jsKeysLen : JVal → Nat
  | .obj fields => fields.length
  | .arr elems => elems.length
  | .str s => s.data.length
  | _ => 0

/-- Truthiness of an optional string, as JavaScript sees a possibly
undefined string property: `none` (undefined) and the empty string are
falsy. -/
def strTruthy : Option String → Bool
  | none => false
  | some s => !s.data.isEmpty

/-- Coercion of a possibly undefined string to a string, as JavaScript
string concatenation does: `undefined` prints as the text `undefined`. -/
def jsStr : Option String → String
  | none => "undefined"
  | some s => s

/-- Split of a character list at a separator, mirroring the JavaScript
`String.prototype.split` with a one-character separator. -/
def splitChAux (sep : Char) : List Char → List (List Char)
  | [] => [[]]
  | c :: cs =>
    let r := splitChAux sep cs
    if c = sep then [] :: r
    else
      match r with
      | h :: t => (c :: h) :: t
      | [] => [[c]]

/-- JavaScript `s.split(sep)` for a one-character separator. -/
def jsSplit (s : String) (sep : Char) : List String :=
  (splitChAux sep s.data).map String.mk

/-- JavaScript `s.startsWith(p)`. -/
def jsStartsWith (s p : String) : Bool :=
  List.isPrefixOf p.data s.data

/-- Replacement of the first occurrence of a pattern in a character list,
mirroring JavaScript `String.prototype.replace` with string arguments. -/
def replaceFirstAux (pat rep : List Char) : List Char → List Char
  | [] => if pat.isEmpty then rep else []
  | c :: cs =>
    if List.isPrefixOf pat (c :: cs) then rep ++ (c :: cs).drop pat.length
    else c :: replaceFirstAux pat rep cs

/-- JavaScript `s.replace(pat, rep)` with plain string arguments: only the
first occurrence is replaced. -/
def jsReplaceFirst (s pat rep : String) : String :=
  String.mk (replaceFirstAux pat.data rep.data s.data)

/-- JavaScript `s.toLowerCase()`, restricted to the character-wise lowering
the code relies on for schema anchor names. -/
def jsToLower (s : String) : String :=
  String.mk (s.data.map Char.toLower)

/-- JavaScript `s.trim()`: strip whitespace from both ends. -/
def jsTrim (s : String) : String :=
  String.mk (((s.data.dropWhile Char.isWhitespace).reverse.dropWhile Char.isWhitespace).reverse)

/-- JavaScript `s.repeat(n)`. -/
def strRepeat (s : String) (n : Nat) : String :=
  String.mk (List.flatten (List.replicate n s.data))

/-- Scalar (non-recursive) keywords of a schema node.  Keywords whose value
never matters to the code beyond presence are kept as presence flags, since
`inferType` only tests `typeof schema[k] !== undefined` on them. -/
structure SchemaCore where
  ref? : Option String := none
  oldRef? : Option String := none
  title? : Option String := none
  description? : Option String := none
  type? : Option String := none
  format? : Option String := none
  nullable : Bool := false
  readOnly : Bool := false
  writeOnly : Bool := false
  required? : Option (List String) := none
  discriminator? : Option String := none
  externalDocs? : Option String := none
  enum? : Option (List JVal) := none
  addPropsBool? : Option Bool := none
  addItemsBool? : Option Bool := none
  hasMinProperties : Bool := false
  hasMaxProperties : Bool := false
  hasDependencies : Bool := false
  hasMaxItems : Bool := false
  hasMinItems : Bool := false
  hasUniqueItems : Bool := false
  hasExclusiveMaximum : Bool := false
  hasExclusiveMinimum : Bool := false
  hasMaximum : Bool := false
  hasMinimum : Bool := false
  hasMultipleOf : Bool := false
  hasMaxLength : Bool := false
  hasMinLength : Bool := false
  hasPattern : Bool := false

/-- Schema node: scalar keywords plus the nine schema-valued positions the
walker descends into.  `additionalProperties` and `additionalItems` given
as booleans live in `SchemaCore`; given as objects they live here. -/
inductive JSchema where
  | mk (core : SchemaCore)
       (items? : Option JSchema)
       (additionalItems? : Option JSchema)
       (additionalProperties? : Option JSchema)
       (properties? : Option (List (String × JSchema)))
       (patternProperties? : Option (List (String × JSchema)))
       (allOf? : Option (List JSchema))
       (anyOf? : Option (List JSchema))
       (oneOf? : Option (List JSchema))
       (not? : Option JSchema)

def JSchema.core : JSchema → SchemaCore
  | .mk c _ _ _ _ _ _ _ _ _ => c

def JSchema.items? : JSchema → Option JSchema
  | .mk _ i _ _ _ _ _ _ _ _ => i

def JSchema.additionalItems? : JSchema → Option JSchema
  | .mk _ _ ai _ _ _ _ _ _ _ => ai

def JSchema.additionalProperties? : JSchema → Option JSchema
  | .mk _ _ _ ap _ _ _ _ _ _ => ap

def JSchema.properties? : JSchema → Option (List (String × JSchema))
  | .mk _ _ _ _ p _ _ _ _ _ => p

def JSchema.patternProperties? : JSchema → Option (List (String × JSchema))
  | .mk _ _ _ _ _ pp _ _ _ _ => pp

def JSchema.allOf? : JSchema → Option (List JSchema)
  | .mk _ _ _ _ _ _ a _ _ _ => a

def JSchema.anyOf? : JSchema → Option (List JSchema)
  | .mk _ _ _ _ _ _ _ a _ _ => a

def JSchema.oneOf? : JSchema → Option (List JSchema)
  | .mk _ _ _ _ _ _ _ _ o _ => o

def JSchema.not? : JSchema → Option JSchema
  | .mk _ _ _ _ _ _ _ _ _ n => n

def JSchema.ref? (s : JSchema) : Option String := s.core.ref?

def JSchema.oldRef? (s : JSchema) : Option String := s.core.oldRef?

def JSchema.title? (s : JSchema) : Option String := s.core.title?

def JSchema.description? (s : JSchema) : Option String := s.core.description?

def JSchema.type? (s : JSchema) : Option String := s.core.type?

def JSchema.format? (s : JSchema) : Option String := s.core.format?

def JSchema.required? (s : JSchema) : Option (List String) := s.core.required?

def JSchema.discriminator? (s : JSchema) : Option String := s.core.discriminator?

def JSchema.enum? (s : JSchema) : Option (List JVal) := s.core.enum?

/-- Empty object schema, the second argument of the root walk call. -/
def emptySchema : JSchema := .mk {} none none none none none none none none none

/-- Presence of any object-group keyword, as tested by the first call of
the local helper `has` inside `inferType` (src lines 237 to 239). -/
def hasObjectKeys (s : JSchema) : Bool :=
  s.properties?.isSome || s.additionalProperties?.isSome || s.core.addPropsBool?.isSome ||
  s.patternProperties?.isSome || s.core.hasMinProperties || s.core.hasMaxProperties ||
  s.required?.isSome || s.core.hasDependencies

/-- Presence of any array-group keyword (src lines 240 to 242). -/
def hasArrayKeys (s : JSchema) : Bool :=
  s.items?.isSome || s.additionalItems?.isSome || s.core.addItemsBool?.isSome ||
  s.core.hasMaxItems || s.core.hasMinItems || s.core.hasUniqueItems

/-- Presence of any numeric-constraint keyword (src lines 243 to 245). -/
def hasNumberKeys (s : JSchema) : Bool :=
  s.core.hasExclusiveMaximum || s.core.hasExclusiveMinimum || s.core.hasMaximum ||
  s.core.hasMinimum || s.core.hasMultipleOf

/-- Presence of any string-length or pattern keyword (src lines 246 to
248).  The source pushes the candidate `number` for this group. -/
def hasStringLengthKeys (s : JSchema) : Bool :=
  s.core.hasMaxLength || s.core.hasMinLength || s.core.hasPattern

/-- Candidate type list built by `inferType` (src lines 236 to 253), in
source order; the enum loop pushes one `typeof` entry per enum value,
duplicates included. -/
def possibleTypes (schema : JSchema) : List String :=
  (if hasObjectKeys schema then ["object"] else []) ++
  (if hasArrayKeys schema then ["array"] else []) ++
  (if hasNumberKeys schema then ["number"] else []) ++
  (if hasStringLengthKeys schema then ["number"] else []) ++
  (match schema.enum? with
   | some vs => vs.map jsTypeof
   | none => [])

/-- Transcription of `inferType` (src lines 226 to 257): an explicit truthy
`type` wins; otherwise the single candidate is used when the candidate list
has length exactly one, and the label `any` otherwise. -/
def inferType (schema : JSchema) : String :=
  if strTruthy schema.type? then jsStr schema.type?
  else
    let pts := possibleTypes schema
    if pts.length = 1 then pts.headD "any" else "any"

/-- Comparison `state.depth >= maxDepth` inside the `strim` callback: false
when `maxDepth` is undefined. -/
def cmpGeDepth (d : Nat) (maxDepth : Option Int) : Bool :=
  match maxDepth with
  | some m => decide ((d : Int) ≥ m)
  | none => false

mutual
/-- Net effect on one child value of the `strim` callback running under the
external reftools `recurse` (modelled from the spec, src lines 259 to 271):
while iterating the keys of a container at traversal depth `d`, the
callback replaces that container in its parent by its empty equivalent
whenever `d` reaches `maxDepth`; an empty container fires no callback and
is kept as it is.  Containers below the bound are traversed further. -/
def strimChild (maxDepth : Option Int) (d : Nat) : JVal → JVal
  | .arr elems =>
    if cmpGeDepth d maxDepth then .arr (if elems.isEmpty then elems else [])
    else .arr (strimList maxDepth (d + 1) elems)
  | .obj fields =>
    if cmpGeDepth d maxDepth then .obj (if fields.isEmpty then fields else [])
    else .obj (strimFields maxDepth (d + 1) fields)
  | v => v

/-- Pointwise `strimChild` over array elements. -/
def strimList (maxDepth : Option Int) (d : Nat) : List JVal → List JVal
  | [] => []
  | v :: vs => strimChild maxDepth d v :: strimList maxDepth d vs

/-- Pointwise `strimChild` over object fields. -/
def strimFields (maxDepth : Option Int) (d : Nat) : List (String × JVal) → List (String × JVal)
  | [] => []
  | kv :: kvs => (kv.1, strimChild maxDepth d kv.2) :: strimFields maxDepth d kvs
end

/-- Transcription of `strim` (src lines 259 to 271): `maxDepth <= 0`
returns the value untouched (an undefined `maxDepth` skips that early
return but then no depth test ever fires); otherwise the recursive
truncation walks the tree with root children at depth one. -/
def strim (obj : JVal) (maxDepth : Option Int) : JVal :=
  if (match maxDepth with | some m => decide (m ≤ 0) | none => false) = true then obj
  else
    match obj with
    | .arr elems => .arr (strimList maxDepth 1 elems)
    | .obj fields => .obj (strimFields maxDepth 1 fields)
    | v => v

mutual
/-- Specification-side truncation, following the words of the claim: every
nested array at depth at least `maxDepth` is replaced by the empty array,
every nested object there by the empty object, and values at shallower
depths are preserved.  `k` is the remaining depth budget. -/
def truncSpec (k : Nat) : JVal → JVal
  | .arr elems =>
    match k with
    | 0 => .arr []
    | k' + 1 => .arr (truncSpecList k' elems)
  | .obj fields =>
    match k with
    | 0 => .obj []
    | k' + 1 => .obj (truncSpecFields k' fields)
  | v => v

/-- Pointwise `truncSpec` over array elements. -/
def truncSpecList (k : Nat) : List JVal → List JVal
  | [] => []
  | v :: vs => truncSpec k v :: truncSpecList k vs

/-- Pointwise `truncSpec` over object fields. -/
def truncSpecFields (k : Nat) : List (String × JVal) → List (String × JVal)
  | [] => []
  | kv :: kvs => (kv.1, truncSpec k kv.2) :: truncSpecFields k kvs
end

mutual
/-- Recursive removal of keys carrying the internal tool-marker prefix,
the effect of `clean` running the external reftools `visit` with a filter
dropping every key that starts with `x-widdershins` (modelled from the
spec: strip internal marker keys recursively; src lines 471 to 479). -/
def stripCustomKeys : JVal → JVal
  | .obj fields => .obj (stripCustomFields fields)
  | .arr elems => .arr (stripCustomList elems)
  | v => v

/-- Pointwise `stripCustomKeys` over array elements. -/
def stripCustomList : List JVal → List JVal
  | [] => []
  | v :: vs => stripCustomKeys v :: stripCustomList vs

/-- Filter and recurse over object fields for `stripCustomKeys`. -/
def stripCustomFields : List (String × JVal) → List (String × JVal)
  | [] => []
  | kv :: kvs =>
    if jsStartsWith kv.1 "x-widdershins" then stripCustomFields kvs
    else (kv.1, stripCustomKeys kv.2) :: stripCustomFields kvs
end

/-- Transcription of `clean` (src lines 471 to 479): an undefined input
becomes the empty object, every other value has its marker keys stripped
recursively. -/
def clean (obj : Option JVal) : JVal :=
  match obj with
  | none => .obj []
  | some v => stripCustomKeys v

/-- Cycle-safe deep clone (external reftools `circularClone`).  On the
finite trees of this embedding a deep clone returns an equal value. -/
def circularClone (v : JVal) : JVal := v

/-- JSON round trip `JSON.parse(safejson(v))` (external
safe-json-stringify).  On finite JSON trees the round trip returns an
equal value and never throws. -/
def jsonRoundTrip (v : JVal) : JVal := v

/-- External randomized sample generator (openapi-sampler), kept fully
abstract: given a call index (successive calls of a randomized generator
may disagree), the schema argument and the definitions context, it either
throws (an error message) or returns a possibly undefined value. -/
def SamplerGen : Type := Nat → JVal → JVal → Except String (Option JVal)

/-- Configuration bag as read by the sample synthesizer: the `sample`
switch, verbosity, the truncation depth and the run-scoped error memo. -/
structure SampleOptions where
  sample : Bool := false
  verbose : Bool := false
  maxDepth : Option Int := none
  samplerErrors : List String := []

/-- Result of `getSampleInner`: the returned value (`none` models the
JavaScript `undefined`), the updated error memo, and the diagnostic lines
emitted along the way (a lone dot models the compact repeat marker). -/
structure InnerOut where
  value : Option JVal
  memo : List String
  diags : List String

/-- Deduplicated diagnostic recording (src lines 510 to 515 and 524 to
529): a message already in the memo emits the compact dot, a new message
is reported in full and remembered. -/
def recordSamplerError (memo diags : List String) (tag msg : String) :
    List String × List String :=
  if memo.contains msg then (memo, diags ++ ["."])
  else (memo ++ [msg], diags ++ [tag ++ msg])

/-- Message of the TypeError thrown by reading `.anonymous` on an
undefined sampler result inside the try block (src line 506). -/
def typeErrorUndefined : String :=
  "TypeError: Cannot read properties of undefined (reading anonymous)"

/-- Message of the TypeError thrown by reading `.anonymous` on a null
sampler result inside the try block (src line 506). -/
def typeErrorNull : String :=
  "TypeError: Cannot read properties of null (reading anonymous)"

/-- Synthetic envelope built at src line 506 to coerce generators that
refuse untyped input. -/
def anonWrap (v : JVal) : JVal :=
  .obj [("type", .str "object"), ("properties", .obj [("anonymous", v)])]

/-- Catch block of `getSampleInner` (src lines 509 to 531): record the
message, re-clone the original through a JSON round trip, retry once, and
on a second failure record again and fall back to the cloned value. -/
def getSampleCatch (orig : JVal) (options : SampleOptions) (gen : SamplerGen) (api : JVal)
    (k : Nat) (msg : String) : InnerOut :=
  let md := recordSamplerError options.samplerErrors [] "# sampler " msg
  let diags := if options.verbose then md.2 ++ [msg] else md.2
  let obj := jsonRoundTrip orig
  match gen k obj api with
  | .ok (some s) => ⟨some s, md.1, diags⟩
  | .ok none => ⟨some obj, md.1, diags⟩
  | .error msg2 =>
    let md2 := recordSamplerError md.1 diags "# sampler 2nd error " msg2
    ⟨some obj, md2.1, md2.2⟩

/-- Tail of the try block after a sample was produced (src lines 503 to
507 plus the fall-through return at line 533): an undefined sample falls
through to returning the clone; a non-null sample with own keys is
returned; otherwise the anonymous envelope is sampled and its `anonymous`
property returned, where reading the property off undefined or null throws
inside the try block and lands in the catch. -/
def getSampleAfter (orig : JVal) (options : SampleOptions) (gen : SamplerGen) (api : JVal)
    (obj : JVal) (sample : Option JVal) (k : Nat) : Except String InnerOut :=
  match sample with
  | none => .ok ⟨some obj, options.samplerErrors, []⟩
  | some s =>
    if (match s with | .null => false | _ => true) && (jsKeysLen s != 0) then
      .ok ⟨some s, options.samplerErrors, []⟩
    else
      match gen k (anonWrap obj) api with
      | .error msg => .ok (getSampleCatch orig options gen api (k + 1) msg)
      | .ok none => .ok (getSampleCatch orig options gen api (k + 1) typeErrorUndefined)
      | .ok (some .null) => .ok (getSampleCatch orig options gen api (k + 1) typeErrorNull)
      | .ok (some r) => .ok ⟨objGet r "anonymous", options.samplerErrors, []⟩

/-- Transcription of `getSampleInner` (src lines 491 to 534).  The
`Except` layer carries any exception that would escape the function; the
try and catch placement of the source is transcribed exactly, so an
escaping error is representable but should never occur.  When the sample
is itself an unresolved reference placeholder the original is re-cloned
through a JSON round trip and sampling is retried once (src lines 498 to
502). -/
def getSampleInner (orig : JVal) (options : SampleOptions) (gen : SamplerGen) (api : JVal) :
    Except String InnerOut :=
  let obj := circularClone orig
  if options.sample && jsTruthy obj then
    match gen 0 obj api with
    | .error msg => .ok (getSampleCatch orig options gen api 1 msg)
    | .ok sample0 =>
      let needRetry :=
        match sample0 with
        | some v => jsTruthy v && (objGet v "$ref").isSome
        | none => false
      if needRetry then
        let obj2 := jsonRoundTrip orig
        match gen 1 obj2 api with
        | .error msg => .ok (getSampleCatch orig options gen api 2 msg)
        | .ok sample1 => getSampleAfter orig options gen api obj2 sample1 2
      else getSampleAfter orig options gen api obj sample0 1
  else .ok ⟨some obj, options.samplerErrors, []⟩

/-- Transcription of `getSample` (src lines 545 to 551): a truthy
`example` property is returned unchanged; otherwise the inner synthesizer
runs and its value is cleaned of marker keys and depth-limited. -/
def getSample (orig : JVal) (options : SampleOptions) (gen : SamplerGen) (api : JVal) :
    Except String JVal :=
  if jsTruthy orig && (match objGet orig "example" with | some e => jsTruthy e | none => false) then
    .ok ((objGet orig "example").getD .null)
  else
    match getSampleInner orig options gen api with
    | .error msg => .error msg
    | .ok r => .ok (strim (clean r.value) options.maxDepth)

/-- Removal of carriage returns followed by replacement of newlines with
spaces, the effect of the join option at src lines 426 to 428. -/
def jsJoinLines (s : String) : String :=
  String.mk ((s.data.filter (fun c => decide (c ≠ '\r'))).map (fun c => if c = '\n' then ' ' else c))

/-- Removal of carriage returns followed by taking the first line, the
effect of the truncate option at src lines 429 to 431. -/
def jsFirstLine (s : String) : String :=
  String.mk ((s.data.filter (fun c => decide (c ≠ '\r'))).takeWhile (fun c => decide (c ≠ '\n')))

/-- One callback invocation of the schema walk: the visited node, its
parent node, the property string under which it was reached, the top flag
and the walker traversal depth. -/
structure Event where
  schema : JSchema
  parent : JSchema
  property : Option String
  top : Bool
  depth : Nat

/-- Stripped node passed to the callback for a node with a live `$ref`.
Modelled from the spec: the external oas-schema-walker visits a reference
node through a fresh object holding only the pointer, plus the description
when reference siblings are allowed (as `schemaToArray` requests), and
does not descend into the target. -/
def stripRef (s : JSchema) : JSchema :=
  .mk { ref? := s.ref?,
        description? := if strTruthy s.description? then s.description? else none }
    none none none none none none none none none

/-- Indexed property strings for combinator branches, as the walker
enumerates them: the keyword, a slash, and the decimal branch index. -/
def enumIdx (kw : String) : Nat → List JSchema → List (String × JSchema)
  | _, [] => []
  | i, c :: cs => (kw ++ "/" ++ Nat.repr i, c) :: enumIdx kw (i + 1) cs

/-- Child slots of a node in walk order with their property strings.
Modelled from the spec: the external oas-schema-walker descends into
items, object-valued additionalItems and additionalProperties, properties,
patternProperties, the combinator branch lists and not, in that order. -/
def childSlots (s : JSchema) : List (String × JSchema) :=
  (s.items?.toList.map (fun c => ("items", c))) ++
  (s.additionalItems?.toList.map (fun c => ("additionalItems", c))) ++
  (s.additionalProperties?.toList.map (fun c => ("additionalProperties", c))) ++
  ((s.properties?.getD []).map (fun kc => ("properties/" ++ kc.1, kc.2))) ++
  ((s.patternProperties?.getD []).map (fun kc => ("patternProperties/" ++ kc.1, kc.2))) ++
  enumIdx "allOf" 0 (s.allOf?.getD []) ++
  enumIdx "anyOf" 0 (s.anyOf?.getD []) ++
  enumIdx "oneOf" 0 (s.oneOf?.getD []) ++
  (s.not?.toList.map (fun c => ("not", c)))

/-- Callback event sequence of the schema walk below a node.  Modelled
from the spec: a depth-first traversal visiting combinator branches as
ordinary children; a node with a live reference is visited once in
stripped form and not descended into; the top flag holds only at the root
and the depth grows by one per nesting level.  The fuel argument only
serves structural recursion: every child slot holds a structurally
smaller node, so fuel equal to the size of the node is always enough. -/
def visits : Nat → JSchema → JSchema → Option String → Bool → Nat → List Event
  | 0, _, _, _, _, _ => []
  | fuel + 1, s, parent, property, top, depth =>
    match s.ref? with
    | some _ => [⟨stripRef s, parent, property, top, depth⟩]
    | none =>
      ⟨s, parent, property, top, depth⟩ ::
        (childSlots s).flatMap
          (fun pc => visits fuel pc.2 s (some pc.1) false (depth + 1))

mutual
/-- Executable size of a schema node, used as the walk fuel bound. -/
def schemaSize : JSchema → Nat
  | .mk _ it ai ap pr pp ao an oo nt =>
    1 + schemaOptSize it + schemaOptSize ai + schemaOptSize ap + schemaOptPairsSize pr +
      schemaOptPairsSize pp + schemaOptListSize ao + schemaOptListSize an +
      schemaOptListSize oo + schemaOptSize nt

/-- Size of an optional schema. -/
def schemaOptSize : Option JSchema → Nat
  | none => 0
  | some s => 1 + schemaSize s

/-- Size of an optional schema list. -/
def schemaOptListSize : Option (List JSchema) → Nat
  | none => 0
  | some l => 1 + schemaListSize l

/-- Size of a schema list. -/
def schemaListSize : List JSchema → Nat
  | [] => 0
  | s :: ss => 1 + schemaSize s + schemaListSize ss

/-- Size of an optional named schema list. -/
def schemaOptPairsSize : Option (List (String × JSchema)) → Nat
  | none => 0
  | some l => 1 + schemaPairsSize l

/-- Size of a named schema list. -/
def schemaPairsSize : List (String × JSchema) → Nat
  | [] => 0
  | kc :: kcs => 1 + schemaSize kc.2 + schemaPairsSize kcs
end

/-- Full event sequence of `walkSchema(schema, parent, wsState, callback)`
as called at src line 292, with the empty object as root parent. -/
def walkEvents (schema : JSchema) : List Event :=
  visits (schemaSize schema) schema emptySchema none true 0

/-- Display row (the `entry` object of src lines 323 to 456). -/
structure Row where
  schema : JSchema
  locIn : String
  name : Option String
  depth : Int
  description : Option String
  type : Option String
  format : Option String
  safeType : Option String
  ref : Option String
  restrictions : Option String
  required : Bool
  displayName : String

/-- Titled group of rows (src lines 279 and 303 and 317). -/
structure Block where
  title : String
  rows : List Row
  description : Option String := none
  externalDocs : Option String := none

/-- Caller-supplied translation strings used by the flattener. -/
structure Translations where
  continued : String := "continued"
  anonymous : String := "anonymous"
  indent : String := "»"
  readOnly : String := "read-only"
  writeOnly : String := "write-only"

/-- Recognized flattener options. -/
structure FlattenOptions where
  trim : Bool := false
  join : Bool := false
  truncate : Bool := false
  shallowSchemas : Bool := false

/-- Conversion context: pointer lookup in the root document (the external
reftools `jptr`, returning `none` on a miss where the source sees the
value false), translation strings, and the options object hanging off the
data record (src reads `shallowSchemas` through `data.options`). -/
structure FlattenData where
  api : String → Option JSchema
  translations : Translations := {}
  options : FlattenOptions := {}

/-- Mutable traversal state of `schemaToArray` (src lines 274 to 279). -/
structure CState where
  iDepth : Nat
  oDepth : Nat
  blockDepth : Nat
  skipDepth : Int
  container : List Block

/-- Result of the per-event entry computation: whether a row is appended,
the row itself, and the updated depth and skip bookkeeping. -/
structure ProcOut where
  doPush : Bool
  row : Row
  iDepth : Nat
  oDepth : Nat
  skipDepth : Int

/-- Block-opening test of src line 295: the property is truthy and starts
with a combinator keyword or equals not. -/
def isBlockProp (property : Option String) : Bool :=
  strTruthy property &&
    (jsStartsWith (jsStr property) "allOf" || jsStartsWith (jsStr property) "anyOf" ||
     jsStartsWith (jsStr property) "oneOf" || jsStr property == "not")

/-- Keyword translation of src lines 299 to 301. -/
def translateKeyword (k : String) : String :=
  if k = "allOf" then "and" else if k = "anyOf" then "or" else if k = "oneOf" then "xor" else k

/-- Base title of a combinator block (src lines 297 to 302): split the
property extended by a zero branch, keep the keyword for branch index 0
and translate it for any other branch index. -/
def combBaseTitle (property : String) : String :=
  let components := jsSplit (property ++ "/0") '/'
  let c0 := components.headD ""
  let c1 := (components.drop 1).headD ""
  if c1 ≠ "0" then translateKeyword c0 else c0

/-- Discriminator suffix of a combinator block title (src lines 304 to
312): resolve a truthy reference through the document, derive the prefix
from the pointer, and append the discriminator property name if the
resolved node carries one. -/
def refTitleSuffix (data : FlattenData) (schema : JSchema) : String :=
  if strTruthy schema.ref? then
    match data.api (jsStr schema.ref?) with
    | some dschema =>
      match dschema.discriminator? with
      | some pn =>
        " - discriminator: " ++
          (jsReplaceFirst (jsStr schema.ref?) "#/components/schemas/" "" ++ ".") ++ pn
      | none => ""
    | none => ""
  else
    match schema.discriminator? with
    | some pn => " - discriminator: " ++ pn
    | none => ""

/-- Block bookkeeping of src lines 294 to 321: a combinator property opens
a fresh block and records the opening depth; otherwise, dropping below a
recorded opening depth emits a continued block and clears the record. -/
def blockStep (data : FlattenData) (st : CState) (e : Event) : CState :=
  if isBlockProp e.property then
    { st with
      container := st.container ++
        [{ title := combBaseTitle (jsStr e.property) ++ refTitleSuffix data e.schema, rows := [] }],
      blockDepth := e.depth }
  else
    if st.blockDepth ≠ 0 ∧ e.depth < st.blockDepth then
      { st with
        container := st.container ++ [{ title := data.translations.continued, rows := [] }],
        blockDepth := 0 }
    else st

/-- Name derivation for one callback event, transcribing src lines 323 to
351 in source order: the path segment or anonymous marker, the title
fallback, the forced-inclusion adjustments of the top flag, and the
additionalProperties, additionalItems, patternProperties and anonymous
fallbacks.  Returns the derived name and the adjusted top flag. -/
def procName (data : FlattenData) (e : Event) : Option String × Bool :=
  let isB := isBlockProp e.property
  let n0 : Option String :=
    if strTruthy e.property = true ∧ jsStartsWith (jsStr e.property) "/" = false then
      (if isB = true then some ("*" ++ data.translations.anonymous ++ "*")
       else ((jsSplit (jsStr e.property) '/').drop 1).head?)
    else none
  let n1 := if strTruthy n0 = false ∧ strTruthy e.schema.title? = true then e.schema.title? else n0
  let top :=
    if e.schema.type? = some "array" ∧ e.schema.items?.isSome = true ∧
        strTruthy ((e.schema.items?.getD emptySchema).oldRef?) = true ∧
        strTruthy n1 = false then false
    else if e.schema.type? = some "array" ∧ e.schema.items?.isSome = true ∧
        strTruthy ((e.schema.items?.getD emptySchema).ref?) = true ∧
        strTruthy n1 = false then false
    else if strTruthy n1 = false ∧ e.top = true ∧ strTruthy e.schema.type? = true ∧
        e.schema.type? ≠ some "object" ∧ e.schema.type? ≠ some "array" then false
    else e.top
  let n2 := if top = false ∧ strTruthy n1 = false ∧ e.property = some "additionalProperties" then
      some "**additionalProperties**" else n1
  let n3 := if top = false ∧ strTruthy n2 = false ∧ e.property = some "additionalItems" then
      some "**additionalItems**" else n2
  let n4 := if top = false ∧ strTruthy n3 = false ∧ strTruthy e.property = true ∧
      jsStartsWith (jsStr e.property) "patternProperties" = true then
      some ("*" ++ jsStr n3 ++ "*") else n3
  let nm := if top = false ∧ strTruthy n4 = false ∧ e.parent.items?.isSome = false then
      some ("*" ++ data.translations.anonymous ++ "*") else n4
  (nm, top)

/-- Entry computation after the derived name and adjusted top flag,
transcribing src lines 355 to 456 in source order: depth bookkeeping,
reference rendering and shallow-skip recording, format and array item
types, description cleanup, nullable and restriction markers, the
required flag, type inference, marker and shallow-window name blanking,
and the display name. -/
def procCore (offset : Int) (options : FlattenOptions) (data : FlattenData) (st : CState)
    (e : Event) : ProcOut :=
  let nm := (procName data e).1
  let top := (procName data e).2
  let iDepth2 := if strTruthy nm = true then e.depth else st.iDepth
  let oDepth2 :=
    if strTruthy nm = true then
      (if st.iDepth < e.depth then st.oDepth + 1
       else if e.depth < st.iDepth then st.oDepth - 1 else st.oDepth)
    else st.oDepth
  let entryDepth : Int := max ((oDepth2 : Int) + offset) 0
  let desc0 := e.schema.description?
  let fmt := e.schema.format?
  let hasOld := strTruthy e.schema.oldRef?
  let oldName := jsReplaceFirst (jsStr e.schema.oldRef?) "#/components/schemas/" ""
  let ref1 : Option String := if hasOld = true then some oldName else none
  let safe1 : Option String :=
    if hasOld = true then some ("[" ++ oldName ++ "](#schema" ++ jsToLower oldName ++ ")")
    else e.schema.type?
  let skip1 : Int := if hasOld = true ∧ data.options.shallowSchemas = true then entryDepth
    else st.skipDepth
  let desc1 := if hasOld = true ∧ strTruthy desc0 = false then
      (match data.api (jsStr e.schema.oldRef?) with
       | some t => if strTruthy t.description? = true then t.description? else desc0
       | none => desc0)
    else desc0
  let hasRef := strTruthy e.schema.ref?
  let refName := jsReplaceFirst (jsStr e.schema.ref?) "#/components/schemas/" ""
  let ref2 := if hasRef = true then some refName else ref1
  let type1 := if hasRef = true then some "$ref" else e.schema.type?
  let safe2 := if hasRef = true then some ("[" ++ refName ++ "](#schema" ++ jsToLower refName ++ ")")
    else safe1
  let skip2 := if hasRef = true ∧ data.options.shallowSchemas = true then entryDepth else skip1
  let desc2 := if hasRef = true ∧ strTruthy desc1 = false then
      (match data.api (jsStr e.schema.ref?) with
       | some t => if strTruthy t.description? = true then t.description? else desc1
       | none => desc1)
    else desc1
  let safe3 := if strTruthy fmt = true then some (jsStr safe2 ++ "(" ++ jsStr fmt ++ ")") else safe2
  let isArr := type1 = some "array" ∧ e.schema.items?.isSome = true
  let itemsSchema := e.schema.items?.getD emptySchema
  let it0 := if strTruthy itemsSchema.type? = true then jsStr itemsSchema.type? else "any"
  let hasIOld := strTruthy itemsSchema.oldRef?
  let iOldName := jsReplaceFirst (jsStr itemsSchema.oldRef?) "#/components/schemas/" ""
  let it1 := if hasIOld = true then "[" ++ iOldName ++ "](#schema" ++ jsToLower iOldName ++ ")"
    else it0
  let desc3 := if isArr ∧ hasIOld = true ∧ strTruthy desc2 = false then
      (match data.api (jsStr itemsSchema.oldRef?) with
       | some t => if strTruthy t.description? = true then some ("[" ++ jsStr t.description? ++ "]")
         else desc2
       | none => desc2)
    else desc2
  let hasIRef := strTruthy itemsSchema.ref?
  let iRefName := jsReplaceFirst (jsStr itemsSchema.ref?) "#/components/schemas/" ""
  let it2 := if hasIRef = true then "[" ++ iRefName ++ "](#schema" ++ jsToLower iRefName ++ ")"
    else it1
  let desc4 := if isArr ∧ hasIRef = true ∧ strTruthy desc3 = false then
      (match data.api (jsStr itemsSchema.ref?) with
       | some t => if strTruthy t.description? = true then some ("[" ++ jsStr t.description? ++ "]")
         else desc3
       | none => desc3)
    else desc3
  let it3 := if itemsSchema.anyOf?.isSome = true then "anyOf" else it2
  let it4 := if itemsSchema.allOf?.isSome = true then "allOf" else it3
  let it5 := if itemsSchema.oneOf?.isSome = true then "oneOf" else it4
  let it6 := if itemsSchema.not?.isSome = true then "not" else it5
  let safe4 := if isArr then some ("[" ++ it6 ++ "]") else safe3
  let desc5 := if options.trim = true ∧ desc4.isSome = true then some (jsTrim (jsStr desc4))
    else desc4
  let desc6 := if options.join = true ∧ desc5.isSome = true then some (jsJoinLines (jsStr desc5))
    else desc5
  let desc7 := if options.truncate = true ∧ desc6.isSome = true then
      some (jsFirstLine (jsStr desc6)) else desc6
  let desc8 := if desc7 = some "undefined" then some "" else desc7
  let safe5 := if e.schema.core.nullable = true then some (jsStr safe4 ++ "\\|null") else safe4
  let restr : Option String := if e.schema.core.writeOnly = true then some data.translations.writeOnly
    else if e.schema.core.readOnly = true then some data.translations.readOnly else none
  let req := match e.parent.required?, nm with
    | some l, some n => decide (n ∈ l)
    | _, _ => false
  let type2 := if type1.isNone = true then some (inferType e.schema) else type1
  let safe6 := if type1.isNone = true then type2 else safe5
  let nmA := if (match nm with | some n => jsStartsWith n "x-widdershins-" | none => false) = true
    then some "" else nm
  let nmB := if skip2 ≥ 0 ∧ entryDepth ≥ skip2 then some "" else nmA
  let skip3 := if entryDepth < skip2 then (-1 : Int) else skip2
  let dn := jsTrim (strRepeat data.translations.indent entryDepth.toNat ++ " " ++ jsStr nmB)
  let row : Row :=
    { schema := e.schema, locIn := "body", name := nmB, depth := entryDepth,
      description := desc8, type := type2, format := fmt, safeType := safe6, ref := ref2,
      restrictions := restr, required := req, displayName := dn }
  { doPush := (decide (top = false) || decide (type2 ≠ some "object")) && strTruthy nmB,
    row := row, iDepth := iDepth2, oDepth := oDepth2, skipDepth := skip3 }

/-- Append a row to the rows of the last block in the container, the
effect of `block.rows.push(entry)` at src line 459 where the block
variable always references the most recently pushed block. -/
def pushRow : List Block → Row → List Block
  | [], _ => []
  | [b], r => [{ b with rows := b.rows ++ [r] }]
  | b :: bs, r => b :: pushRow bs r

/-- One callback invocation of `schemaToArray` (src lines 292 to 461):
block bookkeeping, then the entry computation, then the guarded append of
the entry at src lines 458 to 460. -/
def procEvent (offset : Int) (options : FlattenOptions) (data : FlattenData) (st : CState)
    (e : Event) : CState :=
  let st1 := blockStep data st e
  let c := procCore offset options data st e
  { st1 with
    iDepth := c.iDepth,
    oDepth := c.oDepth,
    skipDepth := c.skipDepth,
    container := if c.doPush then pushRow st1.container c.row else st1.container }

/-- Seed block of the container (src lines 279 to 287). -/
def initBlock (schema : JSchema) : Block :=
  { title := if strTruthy schema.title? then jsStr schema.title?
      else if strTruthy schema.description? then jsStr schema.description? else "",
    rows := [],
    description := schema.description?,
    externalDocs := if strTruthy schema.core.externalDocs? then schema.core.externalDocs? else none }

/-- Initial traversal state of `schemaToArray` (src lines 274 to 288). -/
def initState (schema : JSchema) : CState :=
  ⟨0, 0, 0, -1, [initBlock schema]⟩

/-- Fold of the callback over an event list. -/
def foldProc (offset : Int) (options : FlattenOptions) (data : FlattenData) (st : CState)
    (evs : List Event) : CState :=
  evs.foldl (procEvent offset options data) st

/-- Transcription of `schemaToArray` (src lines 273 to 463): seed the
container, walk the schema and fold the callback over the visit events,
and return the container. -/
def schemaToArray (schema : JSchema) (offset : Int) (options : FlattenOptions)
    (data : FlattenData) : List Block :=
  (foldProc offset options data (initState schema) (walkEvents schema)).container

/-- All rows of a container in emission order: blocks are appended at the
end and rows are appended to the last block, so this flat view only ever
grows at its end. -/
def allRows (blocks : List Block) : List Row :=
  blocks.flatMap Block.rows

/-- Rows emitted while processing one event: the appended row when the
push guard fired and the container was nonempty, nothing otherwise. -/
def emitOf (offset : Int) (options : FlattenOptions) (data : FlattenData) (st : CState)
    (e : Event) : List Row :=
  if (procCore offset options data st e).doPush = true ∧
      (blockStep data st e).container.isEmpty = false then
    [(procCore offset options data st e).row]
  else []

/-- Rows emitted while folding over an event list, read off the growing
flat view of the container. -/
def emittedRows (offset : Int) (options : FlattenOptions) (data : FlattenData) (st : CState)
    (evs : List Event) : List Row :=
  (allRows (foldProc offset options data st evs).container).drop (allRows st.container).length

/-- Schema node with only scalar keywords. -/
def leafSchema (core : SchemaCore) : JSchema :=
  .mk core none none none none none none none none none

/-- Schema node with scalar keywords and a properties map. -/
def objSchema (core : SchemaCore) (props : List (String × JSchema)) : JSchema :=
  .mk core none none none (some props) none none none none none

/-- Conversion context with an empty root document. -/
def noApi : FlattenData := { api := fun _ => none }

/-- Object schema with an integer property id (required) and a string
property name, the end-to-end example of the specification. -/
def endToEndSchema : JSchema :=
  objSchema { type? := some "object", required? := some ["id"] }
    [("id", leafSchema { type? := some "integer" }),
     ("name", leafSchema { type? := some "string" })]

/-- Schema with numeric bounds and no explicit type. -/
def minMaxSchema : JSchema := leafSchema { hasMinimum := true, hasMaximum := true }

/-- Schema with a two-string enum and no explicit type. -/
def enumABSchema : JSchema := leafSchema { enum? := some [.str "a", .str "b"] }

/-- Node whose example property is set to the falsy number zero. -/
def exampleZeroNode : JVal := .obj [("type", .str "integer"), ("example", .num 0)]

/-- Node whose example property is set to a truthy number. -/
def exampleFiveNode : JVal := .obj [("example", .num 5)]

/-- Sample generator that throws on every attempt. -/
def failGen : SamplerGen := fun _ _ _ => .error "sampler failed"

/-- Nested leaf under the reference target. -/
def c4Nested : JSchema := leafSchema { type? := some "string" }

/-- Resolved reference node: it carries the resolved-reference marker and
the inlined target content with a nested property. -/
def c4Child : JSchema :=
  objSchema { type? := some "object", oldRef? := some "#/components/schemas/X" }
    [("nested", c4Nested)]

/-- Top-level object holding the resolved reference node as a property. -/
def c4Schema : JSchema := objSchema { type? := some "object" } [("child", c4Child)]

/-- Conversion context with shallow rendering enabled. -/
def shallowOnData : FlattenData := { api := fun _ => none, options := { shallowSchemas := true } }

/-- Callback event for the second branch of a oneOf combinator. -/
def c5Event : Event := ⟨leafSchema {}, emptySchema, some "oneOf/1", false, 1⟩

/-- Callback event for the required integer property id under the
end-to-end schema. -/
def c6Event : Event :=
  ⟨leafSchema { type? := some "integer" }, endToEndSchema, some "properties/id", false, 1⟩

/-- Row built by the entry computation for the id property event. -/
def c6Row : Row := (procCore 0 {} noApi (initState endToEndSchema) c6Event).row

/-- Callback event one nesting level deeper than the id property event. -/
def c7Event2 : Event :=
  ⟨leafSchema { type? := some "string" }, emptySchema, some "properties/x", false, 2⟩

/-- Default row used only to read off a computed head row. -/
def emptyRow : Row := ⟨emptySchema, "", none, 0, none, none, none, none, none, none, false, ""⟩

/-- First row of the flattened end-to-end schema. -/
def c8Row : Row := (allRows (schemaToArray endToEndSchema 0 {} noApi)).headD emptyRow

/-- Concrete nested value exercising truncation at depth two. -/
def c9Val : JVal :=
  .obj [("a", .num 1), ("b", .obj [("c", .num 2)]), ("d", .arr [.arr [.num 3]])]

/-- Top-level object schema carrying a title, hence a derivable name. -/
def c10Schema : JSchema :=
  objSchema { type? := some "object", title? := some "Titled" }
    [("x", leafSchema { type? := some "string" })]

/-- Callback event one nesting level below the root, used for the depth
segment witness. -/
def c7Event1 : Event :=
  ⟨leafSchema { type? := some "boolean" }, emptySchema, some "properties/w", false, 1⟩

/-- First row of the flattened end-to-end schema at a negative offset. -/
def c7Row : Row := (allRows (schemaToArray endToEndSchema (-5) {} noApi)).headD emptyRow

/-- Claim C1: the property fails on the code.  On a schema with numeric
bounds and no type, `inferType` returns number as the claim states; but on
a schema with the enum a, b and no type it returns any, not string,
because the enum loop pushes one typeof entry per value without
deduplication, so the candidate list has length two.  This theorem
evaluates the code at both inputs of the claim. -/
theorem claim1_code_eval :
    inferType minMaxSchema = "number" ∧ inferType enumABSchema = "any" :=
  ⟨rfl, rfl⟩

/-- Helper: a value with a readable property is an object, hence truthy. -/
theorem objGet_truthy (v : JVal) (k : String) (e : JVal) (h : objGet v k = some e) :
    jsTruthy v = true := by
  cases v <;> simp [objGet, jsTruthy] at h ⊢

/-- Claim C2, counterexample: a node whose example field is set to the
falsy number zero does not have that example returned; synthesis and
post-processing run instead (here with sampling disabled, the cleaned
clone of the whole node is returned). -/
theorem claim2_counterexample :
    getSample exampleZeroNode { sample := false } failGen .null ≠ .ok (.num 0) := by
  intro h
  have h2 : exampleZeroNode = .num 0 := by
    have he : getSample exampleZeroNode { sample := false } failGen .null =
        .ok exampleZeroNode := rfl
    rw [he] at h
    injection h
  exact JVal.noConfusion h2

/-- Claim C2, amended: for every node whose example field is set to a
JavaScript-truthy value, `getSample` returns that example unchanged,
skipping synthesis and post-processing, regardless of the sample option;
a falsy example (zero, empty string, false, null) is treated as absent. -/
theorem claim2_amended (orig : JVal) (options : SampleOptions) (gen : SamplerGen)
    (api : JVal) (e : JVal) (h : objGet orig "example" = some e)
    (ht : jsTruthy e = true) : getSample orig options gen api = .ok e := by
  have hv := objGet_truthy orig "example" e h
  simp [getSample, h, ht, hv]

/-- Witness for the amended claim C2 at a concrete truthy example. -/
theorem claim2_amended_witness :
    getSample exampleFiveNode { sample := false } failGen .null = .ok (.num 5) :=
  claim2_amended exampleFiveNode { sample := false } failGen .null (.num 5) rfl rfl

/-- Helper: the tail of the try block never lets an exception escape. -/
theorem getSampleAfter_isOk (orig : JVal) (options : SampleOptions) (gen : SamplerGen)
    (api : JVal) (obj : JVal) (sample : Option JVal) (k : Nat) :
    ∃ r, getSampleAfter orig options gen api obj sample k = .ok r := by
  rcases sample with _ | s
  · exact ⟨_, rfl⟩
  · simp only [getSampleAfter]
    split
    · exact ⟨_, rfl⟩
    · split
      · exact ⟨_, rfl⟩
      · exact ⟨_, rfl⟩
      · exact ⟨_, rfl⟩
      · exact ⟨_, rfl⟩

/-- Helper: `getSampleInner` never lets an exception escape. -/
theorem getSampleInner_isOk (orig : JVal) (options : SampleOptions) (gen : SamplerGen)
    (api : JVal) : ∃ r, getSampleInner orig options gen api = .ok r := by
  simp only [getSampleInner]
  split
  · split
    · exact ⟨_, rfl⟩
    · split
      · split
        · exact ⟨_, rfl⟩
        · exact getSampleAfter_isOk _ _ _ _ _ _ _
      · exact getSampleAfter_isOk _ _ _ _ _ _ _
  · exact ⟨_, rfl⟩

/-- Helper: `getSample` always returns a defined value. -/
theorem getSample_isOk (orig : JVal) (options : SampleOptions) (gen : SamplerGen)
    (api : JVal) : ∃ v, getSample orig options gen api = .ok v := by
  simp only [getSample]
  split
  · exact ⟨_, rfl⟩
  · obtain ⟨r, hr⟩ := getSampleInner_isOk orig options gen api
    rw [hr]
    exact ⟨_, rfl⟩

/-- Claim C3: for every input schema, options, sample generator behaviour
(including one that throws on every attempt) and root document, the
synthesizer propagates no exception past its boundary and always returns
a defined value: `getSampleInner` always yields a result, and `getSample`
always yields a value. -/
theorem claim3_sample_total (orig : JVal) (options : SampleOptions) (gen : SamplerGen)
    (api : JVal) :
    (∃ r, getSampleInner orig options gen api = .ok r) ∧
    (∃ v, getSample orig options gen api = .ok v) :=
  ⟨getSampleInner_isOk orig options gen api, getSample_isOk orig options gen api⟩

/-- Helper: below its depth bound, the net truncation effect of the strim
callback agrees with the specification-side truncation, jointly for
values, array element lists and object field lists, by strong induction on
size. -/
theorem strim_trunc_aux (m : Int) :
    ∀ n : Nat,
      (∀ v : JVal, sizeOf v ≤ n → ∀ d : Nat, (d : Int) ≤ m →
        strimChild (some m) d v = truncSpec (m - d).toNat v) ∧
      (∀ l : List JVal, sizeOf l ≤ n → ∀ d : Nat, (d : Int) ≤ m →
        strimList (some m) d l = truncSpecList (m - d).toNat l) ∧
      (∀ l : List (String × JVal), sizeOf l ≤ n → ∀ d : Nat, (d : Int) ≤ m →
        strimFields (some m) d l = truncSpecFields (m - d).toNat l) := by
  intro n
  induction n with
  | zero =>
    refine ⟨?_, ?_, ?_⟩
    · intro v hv; cases v <;> simp at hv
    · intro l hl; cases l <;> simp at hl
    · intro l hl; cases l <;> simp at hl
  | succ n ih =>
    obtain ⟨ihv, ihl, ihf⟩ := ih
    refine ⟨?_, ?_, ?_⟩
    · intro v hv d hd
      cases v with
      | null => simp [strimChild, truncSpec]
      | bool b => simp [strimChild, truncSpec]
      | num k => simp [strimChild, truncSpec]
      | str s => simp [strimChild, truncSpec]
      | arr elems =>
        by_cases hge : m ≤ (d : Int)
        · have hz : (m - d).toNat = 0 := by omega
          have hcmp : cmpGeDepth d (some m) = true := by
            simp [cmpGeDepth]; omega
          cases elems with
          | nil => simp [strimChild, truncSpec, hcmp, hz]
          | cons x xs => simp [strimChild, truncSpec, hcmp, hz]
        · have hcmp : cmpGeDepth d (some m) = false := by
            simp [cmpGeDepth]; omega
          have hsz : sizeOf elems ≤ n := by
            simp at hv; omega
          have hrec := ihl elems hsz (d + 1) (by push_cast; omega)
          have hsucc : (m - d).toNat = (m - (d + 1)).toNat + 1 := by omega
          simp [strimChild, truncSpec, hcmp, hsucc, hrec]
      | obj fields =>
        by_cases hge : m ≤ (d : Int)
        · have hz : (m - d).toNat = 0 := by omega
          have hcmp : cmpGeDepth d (some m) = true := by
            simp [cmpGeDepth]; omega
          cases fields with
          | nil => simp [strimChild, truncSpec, hcmp, hz]
          | cons x xs => simp [strimChild, truncSpec, hcmp, hz]
        · have hcmp : cmpGeDepth d (some m) = false := by
            simp [cmpGeDepth]; omega
          have hsz : sizeOf fields ≤ n := by
            simp at hv; omega
          have hrec := ihf fields hsz (d + 1) (by push_cast; omega)
          have hsucc : (m - d).toNat = (m - (d + 1)).toNat + 1 := by omega
          simp [strimChild, truncSpec, hcmp, hsucc, hrec]
    · intro l hl d hd
      cases l with
      | nil => simp [strimList, truncSpecList]
      | cons x xs =>
        have hx : sizeOf x ≤ n := by simp at hl; omega
        have hxs : sizeOf xs ≤ n := by simp at hl; omega
        simp [strimList, truncSpecList, ihv x hx d hd, ihl xs hxs d hd]
    · intro l hl d hd
      cases l with
      | nil => simp [strimFields, truncSpecFields]
      | cons kv kvs =>
        have hx : sizeOf kv.2 ≤ n := by
          cases kv with
          | mk k x => simp at hl ⊢; omega
        have hxs : sizeOf kvs ≤ n := by simp at hl; omega
        simp [strimFields, truncSpecFields, ihv kv.2 hx d hd, ihf kvs hxs d hd]

set_option maxRecDepth 4000 in
/-- Claim C9: for every value, a maximum depth of zero or less returns the
value untruncated; for a positive maximum depth, `strim` computes exactly
the specification-side truncation that replaces every nested array or
object at depth at least the bound by its empty equivalent while
preserving shallower values. -/
theorem claim9_strim :
    (∀ (v : JVal) (m : Int), m ≤ 0 → strim v (some m) = v) ∧
    (∀ (v : JVal) (m : Int), 0 < m → strim v (some m) = truncSpec m.toNat v) := by
  constructor
  · intro v m hm
    simp [strim, hm]
  · intro v m hm
    have h0 : ¬ (m ≤ 0) := by omega
    have hsucc : m.toNat = (m - 1).toNat + 1 := by omega
    cases v with
    | null => simp [strim, truncSpec, h0]
    | bool b => simp [strim, truncSpec, h0]
    | num k => simp [strim, truncSpec, h0]
    | str s => simp [strim, truncSpec, h0]
    | arr elems =>
      have hrec := (strim_trunc_aux m (sizeOf elems)).2.1 elems le_rfl 1 (by omega)
      simp only [Nat.cast_one] at hrec
      simp only [strim]
      rw [if_neg (by simp [h0]), hsucc]
      simp only [truncSpec]
      rw [hrec]
    | obj fields =>
      have hrec := (strim_trunc_aux m (sizeOf fields)).2.2 fields le_rfl 1 (by omega)
      simp only [Nat.cast_one] at hrec
      simp only [strim]
      rw [if_neg (by simp [h0]), hsucc]
      simp only [truncSpec]
      rw [hrec]

/-- Witness for claim C9 at a concrete nested value and the bounds zero
and two. -/
theorem claim9_strim_witness :
    strim c9Val (some 0) = c9Val ∧ strim c9Val (some 2) = truncSpec (2 : Int).toNat c9Val :=
  ⟨claim9_strim.1 c9Val 0 (by decide), claim9_strim.2 c9Val 2 (by decide)⟩

/-- Helper: appending a row to the last block never changes block titles. -/
theorem pushRow_titles : ∀ (c : List Block) (r : Row),
    (pushRow c r).map Block.title = c.map Block.title
  | [], _ => rfl
  | [_], _ => rfl
  | _ :: b2 :: bs, r => by
    simp only [pushRow, List.map_cons, List.cons.injEq]
    exact ⟨by trivial, pushRow_titles (b2 :: bs) r⟩

/-- Helper: the flat row view distributes over container concatenation. -/
theorem allRows_append (a b : List Block) : allRows (a ++ b) = allRows a ++ allRows b := by
  simp [allRows]

/-- Helper: appending a row to the last block of a nonempty container
appends it at the end of the flat row view. -/
theorem allRows_pushRow : ∀ (c : List Block) (r : Row), c ≠ [] →
    allRows (pushRow c r) = allRows c ++ [r]
  | [], _, h => absurd rfl h
  | [b], r, _ => by simp [pushRow, allRows]
  | b :: b2 :: bs, r, _ => by
    have ih := allRows_pushRow (b2 :: bs) r (by simp)
    simp only [pushRow, allRows, List.flatMap_cons] at ih ⊢
    rw [ih]
    simp [allRows]

/-- Helper: block bookkeeping only ever appends row-less blocks, so the
flat row view is unchanged. -/
theorem blockStep_allRows (data : FlattenData) (st : CState) (e : Event) :
    allRows (blockStep data st e).container = allRows st.container := by
  unfold blockStep
  split
  · simp [allRows_append, allRows]
  · split
    · simp [allRows_append, allRows]
    · rfl

/-- Helper: block bookkeeping leaves the depth and skip counters alone. -/
theorem blockStep_counters (data : FlattenData) (st : CState) (e : Event) :
    (blockStep data st e).iDepth = st.iDepth ∧ (blockStep data st e).oDepth = st.oDepth ∧
    (blockStep data st e).skipDepth = st.skipDepth := by
  unfold blockStep
  split
  · exact ⟨rfl, rfl, rfl⟩
  · split
    · exact ⟨rfl, rfl, rfl⟩
    · exact ⟨rfl, rfl, rfl⟩

/-- Helper: processing one event appends exactly the emitted rows to the
flat row view of the container. -/
theorem procEvent_allRows (offset : Int) (options : FlattenOptions) (data : FlattenData)
    (st : CState) (e : Event) :
    allRows (procEvent offset options data st e).container =
      allRows st.container ++ emitOf offset options data st e := by
  unfold procEvent emitOf
  by_cases hp : (procCore offset options data st e).doPush = true
  · rcases hbc : (blockStep data st e).container with _ | ⟨b, bs⟩
    · have h1 : allRows st.container = [] := by
        have h2 := blockStep_allRows data st e
        rw [hbc] at h2
        simpa [allRows] using h2.symm
      have h4 : ∀ x ∈ st.container, x.rows = [] := by simpa [allRows] using h1
      simp [hp, hbc, pushRow, allRows]
      exact h4
    · have hne : (blockStep data st e).container ≠ [] := by rw [hbc]; simp
      have h3 := allRows_pushRow (blockStep data st e).container
        (procCore offset options data st e).row hne
      simp only [hp, if_true, hbc, List.isEmpty_cons, ne_eq, not_false_eq_true, and_true,
        if_pos, true_and]
      rw [← hbc] at *
      simp [hp, h3, blockStep_allRows]
  · simp [hp, blockStep_allRows]

/-- Helper: a pushed entry always carries a truthy name, read off the push
guard itself. -/
theorem procCore_name_truthy (offset : Int) (options : FlattenOptions) (data : FlattenData)
    (st : CState) (e : Event) (h : (procCore offset options data st e).doPush = true) :
    strTruthy (procCore offset options data st e).row.name = true := by
  simp only [procCore] at h ⊢
  exact ((Bool.and_eq_true _ _).mp h).2

/-- Helper: the depth of every built row is nonnegative by the clamp at
src line 367. -/
theorem procCore_row_depth_nonneg (offset : Int) (options : FlattenOptions) (data : FlattenData)
    (st : CState) (e : Event) : 0 ≤ (procCore offset options data st e).row.depth := by
  simp only [procCore]
  exact le_max_right _ _

/-- Claim C4: code evaluation at the failing input.  With shallow
rendering enabled, a resolved reference node with nested properties
yields no rows at all: the skip depth is recorded as the reference rows
own depth and the blanking test uses a non-strict comparison, so the
reference row itself is blanked and dropped along with its descendants.
With the option disabled both the reference row and its descendant
appear. -/
theorem claim4_code_eval :
    allRows (schemaToArray c4Schema 0 {} shallowOnData) = [] ∧
    (allRows (schemaToArray c4Schema 0 {} noApi)).map Row.name =
      [some "child", some "nested"] :=
  ⟨rfl, rfl⟩

/-- Helper: membership in the emitted rows of one event means the push
guard fired and the row is the built entry. -/
theorem emitOf_mem (offset : Int) (options : FlattenOptions) (data : FlattenData)
    (st : CState) (e : Event) (r : Row) (h : r ∈ emitOf offset options data st e) :
    (procCore offset options data st e).doPush = true ∧
      r = (procCore offset options data st e).row := by
  unfold emitOf at h
  split at h
  · rename_i hcond
    simp only [List.mem_singleton] at h
    exact ⟨hcond.1, h⟩
  · simp at h

/-- Helper: the truthy-name invariant of the flat row view is preserved by
folding the callback over any event list. -/
theorem foldProc_names (offset : Int) (options : FlattenOptions) (data : FlattenData) :
    ∀ (evs : List Event) (st : CState),
      (∀ r ∈ allRows st.container, strTruthy r.name = true) →
      ∀ r ∈ allRows (foldProc offset options data st evs).container, strTruthy r.name = true := by
  intro evs
  induction evs with
  | nil => intro st h; simpa [foldProc] using h
  | cons e evs ih =>
    intro st h r hr
    have hfold : foldProc offset options data st (e :: evs) =
        foldProc offset options data (procEvent offset options data st e) evs := by
      simp [foldProc]
    rw [hfold] at hr
    refine ih (procEvent offset options data st e) ?_ r hr
    intro r2 hr2
    rw [procEvent_allRows] at hr2
    rcases List.mem_append.mp hr2 with h1 | h2
    · exact h r2 h1
    · obtain ⟨hpush, heq⟩ := emitOf_mem offset options data st e r2 h2
      rw [heq]
      exact procCore_name_truthy offset options data st e hpush

/-- Claim C8: every row appended to any block by the flattener has a
truthy (non-empty) name; a node whose derived name is empty, including
names blanked for carrying the internal tool-marker prefix or blanked by
the shallow-rendering window, is never materialized as a row. -/
theorem claim8_rows_named (schema : JSchema) (offset : Int) (options : FlattenOptions)
    (data : FlattenData) :
    ∀ r ∈ allRows (schemaToArray schema offset options data), strTruthy r.name = true := by
  unfold schemaToArray
  refine foldProc_names offset options data (walkEvents schema) (initState schema) ?_
  intro r hr
  simp [initState, initBlock, allRows] at hr

/-- Witness for claim C8 at the flattened end-to-end schema and its first
row. -/
theorem claim8_rows_named_witness : strTruthy c8Row.name = true :=
  claim8_rows_named endToEndSchema 0 {} noApi c8Row (by
    rw [show allRows (schemaToArray endToEndSchema 0 {} noApi) = [c8Row,
      (allRows (schemaToArray endToEndSchema 0 {} noApi)).getLast (by
        intro hx
        exact absurd (congrArg List.length hx) (by decide)) ] from rfl]
    exact List.mem_cons_self _ _)

/-- Helper: a two-step name blanking chain whose result is truthy blanked
nothing. -/
theorem blank_chain_truthy (c1 c2 : Prop) [Decidable c1] [Decidable c2] (o : Option String)
    (h : strTruthy (if c1 then some "" else if c2 then some "" else o) = true) :
    (if c1 then some "" else if c2 then some "" else o) = o := by
  split at h
  · simp [strTruthy] at h
  · rename_i hc1
    rw [if_neg hc1]
    split at h
    · simp [strTruthy] at h
    · rename_i hc2
      rw [if_neg hc2]

/-- Helper: a pushed entry keeps the derived name: the two blanking steps
at src lines 451 to 454 produce an empty (falsy) name, so a truthy pushed
name is untouched by them. -/
theorem procCore_pushed_name (offset : Int) (options : FlattenOptions) (data : FlattenData)
    (st : CState) (e : Event) (h : (procCore offset options data st e).doPush = true) :
    (procCore offset options data st e).row.name = (procName data e).1 := by
  have ht := procCore_name_truthy offset options data st e h
  simp only [procCore] at ht ⊢
  exact blank_chain_truthy _ _ _ ht

/-- Helper: a pushed entry is required exactly when its name is listed in
the required list of the parent node of its event (src line 443). -/
theorem procCore_required_iff (offset : Int) (options : FlattenOptions) (data : FlattenData)
    (st : CState) (e : Event) (h : (procCore offset options data st e).doPush = true) :
    ((procCore offset options data st e).row.required = true ↔
      ∃ l n, e.parent.required? = some l ∧
        (procCore offset options data st e).row.name = some n ∧ n ∈ l) := by
  rw [procCore_pushed_name offset options data st e h]
  simp only [procCore]
  rcases hpr : e.parent.required? with _ | l
  · simp [hpr]
  · rcases hnm : (procName data e).1 with _ | n
    · simp [hpr, hnm]
    · simp [hpr, hnm]

/-- Claim C6: a row emitted for a callback event is required exactly when
its derived name appears in the required list of the immediate parent
schema of that event; in particular a parent without a required list
yields a non-required row. -/
theorem claim6_required (offset : Int) (options : FlattenOptions) (data : FlattenData)
    (st : CState) (e : Event) (r : Row) (h : emitOf offset options data st e = [r]) :
    (r.required = true ↔ ∃ l n, e.parent.required? = some l ∧ r.name = some n ∧ n ∈ l) := by
  have hmem : r ∈ emitOf offset options data st e := by rw [h]; exact List.mem_singleton.mpr rfl
  obtain ⟨hpush, heq⟩ := emitOf_mem offset options data st e r hmem
  rw [heq]
  exact procCore_required_iff offset options data st e hpush

/-- Witness for claim C6 at the required id property of the end-to-end
schema: the emitted row is required because id is listed by the parent. -/
theorem claim6_required_witness :
    c6Row.required = true ↔
      ∃ l n, c6Event.parent.required? = some l ∧ c6Row.name = some n ∧ n ∈ l :=
  claim6_required 0 {} noApi (initState endToEndSchema) c6Event c6Row rfl

/-- Helper: the row depth equals the clamped sum of the updated indent
counter and the caller offset (src line 367). -/
theorem procCore_row_depth_eq (offset : Int) (options : FlattenOptions) (data : FlattenData)
    (st : CState) (e : Event) :
    (procCore offset options data st e).row.depth =
      max (((procCore offset options data st e).oDepth : Int) + offset) 0 := by
  simp only [procCore]

/-- Helper: on a strictly deeper visit the indent counter never shrinks:
it grows by one on a named entry and stays put otherwise. -/
theorem procCore_oDepth_cases (offset : Int) (options : FlattenOptions) (data : FlattenData)
    (st : CState) (e : Event) (h : st.iDepth < e.depth) :
    (procCore offset options data st e).oDepth = st.oDepth ∨
      (procCore offset options data st e).oDepth = st.oDepth + 1 := by
  simp only [procCore]
  by_cases hn : strTruthy (procName data e).1 = true
  · right; simp [hn, h]
  · left; simp [hn]

/-- Helper: the tracked last-seen depth either stays or becomes the depth
of the processed event. -/
theorem procCore_iDepth_cases (offset : Int) (options : FlattenOptions) (data : FlattenData)
    (st : CState) (e : Event) :
    (procCore offset options data st e).iDepth = st.iDepth ∨
      (procCore offset options data st e).iDepth = e.depth := by
  simp only [procCore]
  by_cases hn : strTruthy (procName data e).1 = true
  · right; simp [hn]
  · left; simp [hn]

/-- Helper: the callback step carries the counters of the entry
computation. -/
theorem procEvent_oDepth (offset : Int) (options : FlattenOptions) (data : FlattenData)
    (st : CState) (e : Event) :
    (procEvent offset options data st e).oDepth = (procCore offset options data st e).oDepth :=
  rfl

/-- Helper: the callback step carries the tracked depth of the entry
computation. -/
theorem procEvent_iDepth (offset : Int) (options : FlattenOptions) (data : FlattenData)
    (st : CState) (e : Event) :
    (procEvent offset options data st e).iDepth = (procCore offset options data st e).iDepth :=
  rfl

/-- Helper: one event emits no row or exactly one row. -/
theorem emitOf_cases (offset : Int) (options : FlattenOptions) (data : FlattenData)
    (st : CState) (e : Event) :
    emitOf offset options data st e = [] ∨
      ∃ r, emitOf offset options data st e = [r] := by
  unfold emitOf
  split
  · right; exact ⟨_, rfl⟩
  · left; rfl

/-- Helper: the flat row view after a fold is the flat row view before it
followed by the emitted rows. -/
theorem foldProc_allRows (offset : Int) (options : FlattenOptions) (data : FlattenData) :
    ∀ (evs : List Event) (st : CState),
      allRows (foldProc offset options data st evs).container =
        allRows st.container ++ emittedRows offset options data st evs := by
  intro evs
  induction evs with
  | nil => intro st; simp [foldProc, emittedRows]
  | cons e evs ih =>
    intro st
    have hstep : foldProc offset options data st (e :: evs) =
        foldProc offset options data (procEvent offset options data st e) evs := by
      simp [foldProc]
    unfold emittedRows
    rw [hstep, ih, procEvent_allRows]
    simp [List.append_assoc]

/-- Helper: the emitted rows of a step followed by a fold are the rows of
the step followed by those of the fold. -/
theorem emittedRows_cons (offset : Int) (options : FlattenOptions) (data : FlattenData)
    (st : CState) (e : Event) (evs : List Event) :
    emittedRows offset options data st (e :: evs) =
      emitOf offset options data st e ++
        emittedRows offset options data (procEvent offset options data st e) evs := by
  have h1 := foldProc_allRows offset options data (e :: evs) st
  have h2 := foldProc_allRows offset options data evs (procEvent offset options data st e)
  have hstep : foldProc offset options data st (e :: evs) =
      foldProc offset options data (procEvent offset options data st e) evs := by
    simp [foldProc]
  rw [hstep, h2, procEvent_allRows, List.append_assoc] at h1
  exact (List.append_cancel_left h1).symm

/-- Helper: the nonnegative-depth invariant of the flat row view is
preserved by folding the callback over any event list. -/
theorem foldProc_depths (offset : Int) (options : FlattenOptions) (data : FlattenData) :
    ∀ (evs : List Event) (st : CState),
      (∀ r ∈ allRows st.container, 0 ≤ r.depth) →
      ∀ r ∈ allRows (foldProc offset options data st evs).container, 0 ≤ r.depth := by
  intro evs
  induction evs with
  | nil => intro st h; simpa [foldProc] using h
  | cons e evs ih =>
    intro st h r hr
    have hfold : foldProc offset options data st (e :: evs) =
        foldProc offset options data (procEvent offset options data st e) evs := by
      simp [foldProc]
    rw [hfold] at hr
    refine ih (procEvent offset options data st e) ?_ r hr
    intro r2 hr2
    rw [procEvent_allRows] at hr2
    rcases List.mem_append.mp hr2 with hm1 | hm2
    · exact h r2 hm1
    · obtain ⟨_, heq⟩ := emitOf_mem offset options data st e r2 hm2
      rw [heq]
      exact procCore_row_depth_nonneg offset options data st e

/-- Helper: along a strictly nesting event segment the indent counter is
monotone, the emitted depths are sorted, and every emitted depth is at
least the clamped incoming indent. -/
theorem foldProc_segment (offset : Int) (options : FlattenOptions) (data : FlattenData) :
    ∀ (evs : List Event) (st : CState),
      List.Chain (· < ·) st.iDepth (evs.map Event.depth) →
      st.oDepth ≤ (foldProc offset options data st evs).oDepth ∧
      List.Sorted (· ≤ ·) ((emittedRows offset options data st evs).map Row.depth) ∧
      (∀ x ∈ (emittedRows offset options data st evs).map Row.depth,
        max ((st.oDepth : Int) + offset) 0 ≤ x) := by
  intro evs
  induction evs with
  | nil =>
    intro st _
    refine ⟨le_rfl, ?_, ?_⟩ <;> simp [emittedRows, foldProc]
  | cons e evs ih =>
    intro st hchain
    rw [List.map_cons, List.chain_cons] at hchain
    obtain ⟨h1, h2⟩ := hchain
    have hoD : (procEvent offset options data st e).oDepth = st.oDepth ∨
        (procEvent offset options data st e).oDepth = st.oDepth + 1 := by
      rw [procEvent_oDepth]
      exact procCore_oDepth_cases offset options data st e h1
    have hoLe : st.oDepth ≤ (procEvent offset options data st e).oDepth := by
      rcases hoD with h | h <;> omega
    have hch1 : List.Chain (· < ·) (procEvent offset options data st e).iDepth
        (evs.map Event.depth) := by
      cases hm : evs.map Event.depth with
      | nil => exact List.Chain.nil
      | cons d ds =>
        rw [hm] at h2
        rw [List.chain_cons] at h2 ⊢
        refine ⟨?_, h2.2⟩
        have hi : (procEvent offset options data st e).iDepth = st.iDepth ∨
            (procEvent offset options data st e).iDepth = e.depth := by
          rw [procEvent_iDepth]
          exact procCore_iDepth_cases offset options data st e
        rcases hi with hi | hi <;> rw [hi]
        · exact lt_trans h1 h2.1
        · exact h2.1
    obtain ⟨ihO, ihS, ihB⟩ := ih (procEvent offset options data st e) hch1
    have hfold : foldProc offset options data st (e :: evs) =
        foldProc offset options data (procEvent offset options data st e) evs := by
      simp [foldProc]
    have hemit := emittedRows_cons offset options data st e evs
    have hrowdep : ∀ r ∈ emitOf offset options data st e,
        r.depth = max (((procEvent offset options data st e).oDepth : Int) + offset) 0 := by
      intro r hr
      obtain ⟨_, heq⟩ := emitOf_mem offset options data st e r hr
      rw [heq, procCore_row_depth_eq, procEvent_oDepth]
    have hmono : max ((st.oDepth : Int) + offset) 0 ≤
        max (((procEvent offset options data st e).oDepth : Int) + offset) 0 := by
      refine max_le_max ?_ le_rfl
      have := hoLe
      omega
    refine ⟨?_, ?_, ?_⟩
    · rw [hfold]
      exact le_trans hoLe ihO
    · rw [hemit, List.map_append]
      rcases emitOf_cases offset options data st e with hc | ⟨r0, hc⟩
      · rw [hc]
        simpa using ihS
      · rw [hc]
        simp only [List.map_cons, List.map_nil, List.singleton_append]
        rw [List.sorted_cons]
        refine ⟨?_, ihS⟩
        intro b hb
        have hr0 : r0.depth =
            max (((procEvent offset options data st e).oDepth : Int) + offset) 0 :=
          hrowdep r0 (by rw [hc]; exact List.mem_singleton.mpr rfl)
        rw [hr0]
        exact ihB b hb
    · intro x hx
      rw [hemit, List.map_append] at hx
      rcases List.mem_append.mp hx with hm | hm
      · rcases List.mem_map.mp hm with ⟨r0, hr0, rfl⟩
        rw [hrowdep r0 hr0]
        exact hmono
      · exact le_trans hmono (ihB x hm)

/-- Claim C7: every row emitted by the flattener has nonnegative depth,
for any schema and any (possibly negative) caller offset; and across a
strictly nesting traversal segment the emitted depths are
non-decreasing. -/
theorem claim7_depth :
    (∀ (schema : JSchema) (offset : Int) (options : FlattenOptions) (data : FlattenData),
      ∀ r ∈ allRows (schemaToArray schema offset options data), 0 ≤ r.depth) ∧
    (∀ (offset : Int) (options : FlattenOptions) (data : FlattenData) (st : CState)
      (evs : List Event),
      List.Chain (· < ·) st.iDepth (evs.map Event.depth) →
      List.Sorted (· ≤ ·) ((emittedRows offset options data st evs).map Row.depth)) := by
  constructor
  · intro schema offset options data
    unfold schemaToArray
    refine foldProc_depths offset options data (walkEvents schema) (initState schema) ?_
    intro r hr
    simp [initState, initBlock, allRows] at hr
  · intro offset options data st evs hchain
    exact (foldProc_segment offset options data evs st hchain).2.1

/-- Witness for claim C7: the first row of the end-to-end schema flattened
at the offset minus five has nonnegative depth, and a concrete strictly
nesting two-event segment emits sorted depths. -/
theorem claim7_depth_witness :
    0 ≤ c7Row.depth ∧
      List.Sorted (· ≤ ·)
        ((emittedRows 0 {} noApi (initState emptySchema) [c7Event1, c7Event2]).map Row.depth) := by
  constructor
  · refine claim7_depth.1 endToEndSchema (-5) {} noApi c7Row ?_
    rw [show allRows (schemaToArray endToEndSchema (-5) {} noApi) = [c7Row,
      (allRows (schemaToArray endToEndSchema (-5) {} noApi)).getLast (by
        intro hx
        exact absurd (congrArg List.length hx) (by decide))] from rfl]
    exact List.mem_cons_self _ _
  · refine claim7_depth.2 0 {} noApi (initState emptySchema) [c7Event1, c7Event2] ?_
    refine List.Chain.cons (by decide) (List.Chain.cons (by decide) List.Chain.nil)

/-- Helper: a two-step name blanking chain over an undefined name is
falsy. -/
theorem strTruthy_blank_none (c1 c2 : Prop) [Decidable c1] [Decidable c2] :
    strTruthy (if c1 then some "" else if c2 then some "" else none) = false := by
  split
  · simp [strTruthy]
  · split
    · simp [strTruthy]
    · simp [strTruthy]

/-- Claim C10: a top-level schema node of declared type object never
produces its own row, even when it has a derivable name such as a title:
processing the first (root) walk event leaves the flat row view empty.
The suppression is keyed on the event being top-level with an object
entry type, not on the node being unnamed. -/
theorem claim10_top_object (schema : JSchema) (offset : Int) (options : FlattenOptions)
    (data : FlattenData) (h : schema.type? = some "object") :
    allRows (foldProc offset options data (initState schema)
      ((walkEvents schema).take 1)).container = [] := by
  obtain ⟨n, hn⟩ : ∃ n, schemaSize schema = n + 1 := by
    cases schema with
    | mk c it ai ap pr pp ao an oo nt =>
      refine ⟨schemaSize (JSchema.mk c it ai ap pr pp ao an oo nt) - 1, ?_⟩
      simp [schemaSize]
      omega
  unfold walkEvents
  rw [hn]
  have hinit : allRows (initState schema).container = [] := by
    simp [initState, initBlock, allRows]
  cases href : schema.ref? with
  | some r =>
    simp only [visits, href, List.take, List.take_nil]
    have hf : foldProc offset options data (initState schema)
        [⟨stripRef schema, emptySchema, none, true, 0⟩] =
        procEvent offset options data (initState schema)
          ⟨stripRef schema, emptySchema, none, true, 0⟩ := by
      simp [foldProc]
    rw [hf, procEvent_allRows, hinit, List.nil_append]
    have hnm : (procName data ⟨stripRef schema, emptySchema, none, true, 0⟩).1 = none := by
      simp [procName, stripRef, strTruthy, isBlockProp, JSchema.title?, JSchema.type?,
        JSchema.core, emptySchema]
    unfold emitOf
    suffices hdp : (procCore offset options data (initState schema)
        ⟨stripRef schema, emptySchema, none, true, 0⟩).doPush = false by simp [hdp]
    simp only [procCore, hnm, strTruthy_blank_none, Bool.and_false]
  | none =>
    simp only [visits, href, List.take, List.take_nil]
    have hf : foldProc offset options data (initState schema)
        [⟨schema, emptySchema, none, true, 0⟩] =
        procEvent offset options data (initState schema)
          ⟨schema, emptySchema, none, true, 0⟩ := by
      simp [foldProc]
    rw [hf, procEvent_allRows, hinit, List.nil_append]
    have htop : (procName data ⟨schema, emptySchema, none, true, 0⟩).2 = true := by
      simp [procName, h]
    unfold emitOf
    suffices hdp : (procCore offset options data (initState schema)
        ⟨schema, emptySchema, none, true, 0⟩).doPush = false by simp [hdp]
    have href2 : schema.core.ref? = none := href
    have h2 : schema.core.type? = some "object" := h
    simp only [procCore, htop]
    simp [href2, h2, strTruthy, JSchema.type?, JSchema.ref?]

/-- Witness for claim C10 at a titled top-level object schema. -/
theorem claim10_top_object_witness :
    allRows (foldProc 0 {} noApi (initState c10Schema)
      ((walkEvents c10Schema).take 1)).container = [] :=
  claim10_top_object c10Schema 0 {} noApi rfl

/-- Helper: splitting a list that starts with a separator-free prefix
peels that prefix off as the first component. -/
theorem splitChAux_append (sep : Char) : ∀ (l1 l2 : List Char), sep ∉ l1 →
    splitChAux sep (l1 ++ sep :: l2) = l1 :: splitChAux sep l2 := by
  intro l1
  induction l1 with
  | nil => intro l2 _; simp [splitChAux]
  | cons c cs ih =>
    intro l2 hmem
    have hc : c ≠ sep := by
      intro hh
      exact hmem (hh ▸ List.mem_cons_self _ _)
    have hcs : sep ∉ cs := fun hh => hmem (List.mem_cons_of_mem _ hh)
    simp only [List.cons_append, splitChAux, if_neg hc, List.append_eq, ih l2 hcs]

/-- Helper: rebuilding a string from its characters is the identity. -/
theorem string_mk_data (s : String) : String.mk s.data = s := rfl

/-- Helper: appending the empty string is the identity. -/
theorem string_append_empty (s : String) : s ++ "" = s := by
  have h : (s ++ "").data = s.data := by simp [String.data_append]
  calc s ++ "" = String.mk (s ++ "").data := (string_mk_data _).symm
    _ = String.mk s.data := by rw [h]
    _ = s := string_mk_data s

/-- Helper: the split performed on a combinator property extended by the
zero branch yields the keyword, the branch index and the padding zero. -/
theorem jsSplit_comb (kw b : String) (hk : ('/' : Char) ∉ kw.data)
    (hb : ('/' : Char) ∉ b.data) :
    jsSplit (kw ++ "/" ++ b ++ "/0") '/' = [kw, b, "0"] := by
  unfold jsSplit
  have hdata : (kw ++ "/" ++ b ++ "/0").data = kw.data ++ '/' :: (b.data ++ '/' :: ['0']) := by
    simp [String.data_append]
  rw [hdata, splitChAux_append _ _ _ hk, splitChAux_append _ _ _ hb]
  simp [splitChAux, string_mk_data]

/-- Helper: the base title of a combinator block over an explicit keyword
and branch index string is the keyword for branch zero and its
translation otherwise. -/
theorem combBaseTitle_comb (kw b : String) (hk : ('/' : Char) ∉ kw.data)
    (hb : ('/' : Char) ∉ b.data) :
    combBaseTitle (kw ++ "/" ++ b) = if b = "0" then kw else translateKeyword kw := by
  unfold combBaseTitle
  rw [jsSplit_comb kw b hk hb]
  by_cases h0 : b = "0"
  · simp [h0]
  · simp [h0]

/-- Helper: a string starts with any of its prefixes. -/
theorem jsStartsWith_append (s t : String) : jsStartsWith (s ++ t) s = true := by
  simp [jsStartsWith, String.data_append, List.isPrefixOf_iff_prefix]

/-- Helper: an optional string with a nonempty prefix is truthy. -/
theorem strTruthy_append_ne (s t : String) (h : s.data ≠ []) :
    strTruthy (some (s ++ t)) = true := by
  simp [strTruthy, String.data_append]
  intro hx
  exact absurd hx h

/-- Claim C5: processing a callback event for a combinator branch opens
exactly one new block whose title is the literal keyword for branch index
zero and the translated word for every later branch: and for allOf, or
for anyOf, xor for oneOf (stated for a node contributing no discriminator
suffix). -/
theorem claim5_block_titles (kw tr : String)
    (hk : (kw, tr) ∈ [("allOf", "and"), ("anyOf", "or"), ("oneOf", "xor")])
    (offset : Int) (options : FlattenOptions) (data : FlattenData) (st : CState) (e : Event)
    (b : String) (hp : e.property = some (kw ++ "/" ++ b)) (hb : ('/' : Char) ∉ b.data)
    (hd : refTitleSuffix data e.schema = "") :
    (procEvent offset options data st e).container.map Block.title =
      st.container.map Block.title ++ [if b = "0" then kw else tr] := by
  have hpe : (procEvent offset options data st e).container =
      if (procCore offset options data st e).doPush then
        pushRow (blockStep data st e).container (procCore offset options data st e).row
      else (blockStep data st e).container := rfl
  rw [hpe]
  have h1 : (if (procCore offset options data st e).doPush then
      pushRow (blockStep data st e).container (procCore offset options data st e).row
      else (blockStep data st e).container).map Block.title =
      (blockStep data st e).container.map Block.title := by
    split
    · rw [pushRow_titles]
    · rfl
  rw [h1]
  simp only [List.mem_cons, List.mem_singleton, List.not_mem_nil, or_false,
    Prod.mk.injEq] at hk
  rcases hk with ⟨rfl, rfl⟩ | ⟨rfl, rfl⟩ | ⟨rfl, rfl⟩ <;>
  · have hblock : isBlockProp e.property = true := by
      rw [hp]
      simp only [isBlockProp, jsStr]
      rw [String.append_assoc]
      rw [strTruthy_append_ne _ _ (by decide), jsStartsWith_append]
      simp
    unfold blockStep
    rw [if_pos hblock, hp]
    simp only [jsStr, hd, string_append_empty]
    rw [combBaseTitle_comb _ _ (by decide) hb]
    simp [translateKeyword]

/-- Witness for claim C5 at the second branch of a oneOf combinator. -/
theorem claim5_block_titles_witness :
    (procEvent 0 {} noApi (initState emptySchema) c5Event).container.map Block.title =
      ["", "xor"] := by
  have h := claim5_block_titles "oneOf" "xor" (by simp) 0 {} noApi (initState emptySchema)
    c5Event "1" (by decide) (by decide) rfl
  simpa using h
